import Mathlib

/-!
# Minishell: a shallow embedding of `src/minishell.c`

The C program is an interactive command interpreter with two built-ins (`cd`, `exit`)
and a fork/exec/wait launcher.  This file embeds the parts of it that the specification
talks about:

* C strings are lists of characters (the bytes before the terminating NUL);
* `strtok` is a pure function returning the token and the saved position;
* `handle_quotes` works on an explicit NUL-terminated buffer, exactly as the C loop does;
* the answers of the operating system (`getcwd`, `fgets`, `getpwuid`, `fork`, `waitpid`,
  delivery of `SIGINT`) are inputs of one loop iteration, collected in `Env`;
* what the program does to the outside world (messages on the error stream, `chdir`,
  `exit`) is recorded as an `Action`, standard output as a list of characters.

Only the original (parent) process is followed by `exec_cmd`; the code the forked child
runs before `execvp` is embedded separately as `child_args`.
-/

namespace Minishell

/-! ## Constants -/

/-- The constant `#define BUF_SIZE 4096`. -/
def BUF_SIZE : Nat := 4096

/-- The constant `#define MAX_ARGS 2048`. -/
def MAX_ARGS : Nat := 2048

/-- The constant `#define BRIGHTBLUE "\x1b[34;1m"`. -/
def BRIGHTBLUE : List Char := "\x1b[34;1m".toList

/-- The constant `#define DEFAULT "\x1b[0m"`. -/
def DEFAULT : List Char := "\x1b[0m".toList

/-- Process exit status `EXIT_SUCCESS` of `<stdlib.h>`. -/
def EXIT_SUCCESS : Nat := 0

/-- Process exit status `EXIT_FAILURE` of `<stdlib.h>`. -/
def EXIT_FAILURE : Nat := 1

/-- A C string: the characters before the terminating NUL. -/
abbrev CStr := List Char

/-- The terminating character of a C string. -/
def NUL : Char := Char.ofNat 0

/-- The delimiter set `" \t\n"` used for the command name and the launcher arguments. -/
def WHITESPACE : List Char := [' ', '\t', '\n']

/-- The delimiter set `"\t\n"` used for the argument of `cd`. -/
def TAB_NEWLINE : List Char := ['\t', '\n']

/-! ## C library functions -/

/-- The library function `strtok(s, delim)` (or `strtok(NULL, delim)` with `s` the saved
position): skip leading delimiters; at the end of the string return `NULL`; otherwise the
token runs up to the next delimiter, which is overwritten with NUL, and the saved position
is the character after it (or the end of the string when the token reaches it).
Returns the token and the new saved position. -/
def strtok (delim : List Char) (s : CStr) : Option CStr × CStr :=
  match s.dropWhile (fun c => decide (c ∈ delim)) with
  | [] => (none, [])
  | c :: cs =>
    (some ((c :: cs).takeWhile (fun x => !decide (x ∈ delim))),
     ((c :: cs).dropWhile (fun x => !decide (x ∈ delim))).drop 1)

/-- The C string held by a buffer: its characters before the first NUL. -/
def cstr (buf : List Char) : CStr := buf.takeWhile (fun c => c != NUL)

/-- The library function `strlen`. -/
def strlen (buf : List Char) : Nat := (cstr buf).length

/-! ## The interrupt flag -/

/-- The handler `sigint_handler`: `interrupted = true`. -/
def sigint_handler (_interrupted : Bool) : Bool := true

/-! ## `handle_quotes` -/

/-- The loop `for (size_t i = 1; i < len - 1; i++)` of `handle_quotes`, on the buffer
`dir`: a character that is not a double quote is copied to position `j`, and `j` advances.
The first argument bounds the number of iterations; `len` of them are always enough. -/
def quote_loop (len : Nat) : Nat → Nat → Nat → List Char → Nat × List Char
  | 0, _, j, dir => (j, dir)
  | fuel + 1, i, j, dir =>
    if i < len - 1 then
      if dir.getD i NUL ≠ '"' then
        quote_loop len fuel (i + 1) (j + 1) (dir.set j (dir.getD i NUL))
      else
        quote_loop len fuel (i + 1) j dir
    else (j, dir)

/-- The function `handle_quotes(dir)`: returns the status (0 success, 1 after printing
"Error: Malformed command.") and the string `dir` points to afterwards.  The string lives
in a NUL-terminated buffer that the loop rewrites in place. -/
def handle_quotes (dir : Option CStr) : Nat × Option CStr :=
  match dir with
  | none => (0, none)
  | some s =>
    let buf := s ++ [NUL]
    let len := strlen buf
    if buf.getD 0 NUL = '"' then
      if len = 1 ∨ buf.getD (len - 1) NUL ≠ '"' then
        (1, some (cstr buf))
      else
        let r := quote_loop len len 1 0 buf
        (0, some (cstr (r.2.set r.1 NUL)))
    else (0, some (cstr buf))

/-- The reference definition of `handle_quotes` on a non-null target, in the words of the
specification: a target that begins with a double quote must also end with one and be
longer than one character, else `MalformedCommand` (status 1, string unchanged); otherwise
every double quote is removed; a target that does not begin with a double quote is left
as it is. -/
def handle_quotes_ref (target : CStr) : Nat × CStr :=
  if target.head? = some '"' then
    if target.length = 1 ∨ target.getLast? ≠ some '"' then (1, target)
    else (0, target.filter (fun c => c != '"'))
  else (0, target)

/-! ## Observable behaviour -/

/-- What one call of `exec_cmd` does to the outside world. -/
inductive Action where
  /-- Empty line: `exec_cmd` returns immediately. -/
  | nothing
  /-- The built-in `exit`: `exit(EXIT_SUCCESS)`. -/
  | exit_success
  /-- The function `get_home_dir` returned `NULL` ("Error: Cannot get passwd entry."). -/
  | identity_lookup_error
  /-- The message "Error: Too many arguments to cd." was printed. -/
  | too_many_arguments
  /-- The message "Error: Malformed command." was printed. -/
  | malformed_command
  /-- The call `chdir(new_dir)` was made (it may itself fail, which prints
  "Error: Cannot change directory to ..." and changes nothing else). -/
  | chdir (new_dir : CStr)
  /-- The call `fork()` failed ("Error: fork() failed."). -/
  | fork_error
  /-- A child was forked and waited for. -/
  | launched
  deriving DecidableEq

/-- The termination status `waitpid` stores, seen through the two `<sys/wait.h>` macros
the program applies to it. -/
structure WaitStatus where
  /-- The value of `WIFSIGNALED(status)`. -/
  WIFSIGNALED : Bool
  /-- The value of `WIFSTOPPED(status)`. -/
  WIFSTOPPED : Bool
  deriving DecidableEq

/-- The answers of the operating system during one iteration of the loop in `main`. -/
structure Env where
  /-- The result of `get_cwd()`; `none` when `getcwd` fails. -/
  cwd : Option CStr
  /-- Whether `SIGINT` is delivered (the handler runs) between the start of the iteration
  and the checks that follow `fgets`. -/
  sigint_read : Bool
  /-- The result of `fgets(command, BUF_SIZE, stdin)`: the string left in `command`
  (at most `BUF_SIZE - 1` characters), `none` when `fgets` returns `NULL`. -/
  read : Option CStr
  /-- The result of `get_home_dir()`; `none` when `getpwuid` fails. -/
  home_dir : Option CStr
  /-- The result of `fork()` followed by `waitpid` in the parent: `none` when `fork`
  fails, else the termination status of the child. -/
  fork : Option WaitStatus
  /-- Whether `SIGINT` is delivered to the parent while it waits for the child. -/
  sigint_wait : Bool

/-- The state after `exec_cmd`: the interrupt flag, what was done, and what was written to
standard output. -/
structure Result where
  interrupted : Bool
  action : Action
  stdout : List Char
  deriving DecidableEq

/-! ## `change_dir` -/

/-- The function `change_dir(dir)`.  The home directory is looked up first; then
`handle_quotes`; then `new_dir` is the home directory (`strcpy`) for a null `dir`, the
home directory followed by `dir + 1` cut to the `BUF_SIZE - 1` characters `snprintf`
writes for a `dir` that starts with a tilde, and `dir` itself (`strcpy`) otherwise.
The result records the call `chdir(new_dir)`; its own success or failure changes nothing
in what follows.  The two `strcpy` calls do not bound the copy: the embedding is that of
the defined behaviour, for strings shorter than `BUF_SIZE`. -/
def change_dir (home_dir : Option CStr) (dir : Option CStr) : Action :=
  match home_dir with
  | none => Action.identity_lookup_error
  | some home =>
    let r := handle_quotes dir
    if r.1 ≠ 0 then Action.malformed_command
    else
      match r.2 with
      | none => Action.chdir home
      | some d =>
        if d.head? = some '~' then Action.chdir ((home ++ d.drop 1).take (BUF_SIZE - 1))
        else Action.chdir d

/-! ## `exec_cmd` -/

/-- The scan `for (size_t i = 0; i < strlen(dir); i++)` of the `cd` branch, with the
running quote count `q`: `none` when it stops at a space met while `q` is even
("Error: Too many arguments to cd."), else the final count. -/
def scan_quotes : CStr → Nat → Option Nat
  | [], q => some q
  | c :: cs, q =>
    if c = '"' then scan_quotes cs (q + 1)
    else if c = ' ' ∧ q % 2 = 0 then none
    else scan_quotes cs q

/-- The end of the `cd` branch of `exec_cmd`, from the quote scan on: the scan, the parity
test, then `change_dir(dir)`. -/
def cd_validate (home_dir : Option CStr) (dir : CStr) : Action :=
  match scan_quotes dir 0 with
  | none => Action.too_many_arguments
  | some q =>
    if q % 2 = 1 then Action.malformed_command
    else change_dir home_dir (some dir)

/-- The `cd` branch of `exec_cmd`, from `strtok(NULL, "\t\n")` on; `save` is the saved
position of `strtok` after the command name. -/
def cd_builtin (home_dir : Option CStr) (save : CStr) : Action :=
  match strtok TAB_NEWLINE save with
  | (none, _) => change_dir home_dir none
  | (some dir, save2) =>
    if dir = ['~'] then change_dir home_dir none
    else
      match strtok TAB_NEWLINE save2 with
      | (some _, _) => Action.too_many_arguments
      | (none, _) => cd_validate home_dir dir

/-- The reconciliation in the parent after `waitpid` returns: a newline if the flag is
set, then the flag is assigned from the termination status, then a newline if it is set. -/
def reconcile (interrupted : Bool) (status : WaitStatus) : Bool × List Char :=
  let out1 : List Char := if interrupted then ['\n'] else []
  let interrupted2 := status.WIFSIGNALED || status.WIFSTOPPED
  let out2 : List Char := if interrupted2 then out1 ++ ['\n'] else out1
  (interrupted2, out2)

/-- The function `exec_cmd(command)` as run by the original process. -/
def exec_cmd (env : Env) (interrupted : Bool) (command : CStr) : Result :=
  match strtok WHITESPACE command with
  | (none, _) => ⟨interrupted, Action.nothing, []⟩
  | (some cmd, save) =>
    if cmd = "exit".toList then ⟨interrupted, Action.exit_success, []⟩
    else if cmd = "cd".toList then ⟨interrupted, cd_builtin env.home_dir save, []⟩
    else
      match env.fork with
      | none => ⟨interrupted, Action.fork_error, []⟩
      | some status =>
        let flag := if env.sigint_wait then sigint_handler interrupted else interrupted
        let r := reconcile flag status
        ⟨r.1, Action.launched, r.2⟩

/-- The loop `while ((args[i] = strtok(NULL, " \t\n")) != NULL) i++;` of the child:
the list of the writes `(i, value)` it makes into `args`, in order.  The first argument
bounds the number of iterations. -/
def fill_loop : Nat → Nat → CStr → List (Nat × Option CStr)
  | 0, _, _ => []
  | fuel + 1, i, save =>
    match strtok WHITESPACE save with
    | (none, _) => [(i, none)]
    | (some tok, save2) => (i, some tok) :: fill_loop fuel (i + 1) save2

/-- The argument vector code of the forked child, for a command line whose first token is
neither `cd` nor `exit`: `args[0] = cmd`, then the fill loop from `i = 1`.  Returns the
writes made into `args`; `none` for an empty line (no child is forked). -/
def child_args (command : CStr) : Option (List (Nat × Option CStr)) :=
  match strtok WHITESPACE command with
  | (none, _) => none
  | (some cmd, save) => some ((0, some cmd) :: fill_loop (save.length + 1) 1 save)

/-! ## The loop of `main` -/

/-- Where one iteration of the loop leaves the process. -/
inductive Step where
  /-- The process has ended with this exit status. -/
  | terminated (status : Nat)
  /-- Back at the top of the loop, with this value of the interrupt flag. -/
  | prompt (interrupted : Bool)
  deriving DecidableEq

/-- The outcome of one iteration: where it leaves the process, what `exec_cmd` did
(`none` when `exec_cmd` was not called), and what was written to standard output. -/
structure Iteration where
  step : Step
  dispatched : Option Action
  stdout : List Char
  deriving DecidableEq

/-- The prompt `printf("[%s%s%s]$ ", BRIGHTBLUE, cwd, DEFAULT)`. -/
def prompt_text (cwd : CStr) : List Char :=
  ['['] ++ BRIGHTBLUE ++ cwd ++ DEFAULT ++ "]$ ".toList

/-- One iteration of the `while (true)` loop of `main` (the handler is registered once,
before the loop): `get_cwd`, the prompt, `fgets`, then the two tests of the flag. -/
def main_iteration (env : Env) (interrupted : Bool) : Iteration :=
  match env.cwd with
  | none => ⟨Step.terminated EXIT_FAILURE, none, []⟩
  | some cwd =>
    let out := prompt_text cwd
    let flag := if env.sigint_read then sigint_handler interrupted else interrupted
    match env.read with
    | none =>
      if flag then ⟨Step.prompt false, none, out ++ ['\n']⟩
      else ⟨Step.terminated EXIT_FAILURE, none, out⟩
    | some command =>
      if !flag then
        let r := exec_cmd env flag command
        if r.action = Action.exit_success then
          ⟨Step.terminated EXIT_SUCCESS, some r.action, out ++ r.stdout⟩
        else ⟨Step.prompt r.interrupted, some r.action, out ++ r.stdout⟩
      else ⟨Step.prompt false, none, out⟩

/-! ## Inputs and predicates used in the statements -/

/-- A bare space: a space preceded by an even number of double quotes, that is, a space
outside any quoted span. -/
def bare_space (s : CStr) : Prop :=
  ∃ pre post : List Char, s = pre ++ ' ' :: post ∧ pre.count '"' % 2 = 0

/-- A concrete environment for the checks on concrete inputs: the working directory is
`/tmp`, no signal arrives, the home directory is `/home/user`, and a launched child exits
normally. -/
def sample_env : Env :=
  { cwd := some "/tmp".toList
    sigint_read := false
    read := none
    home_dir := some "/home/user".toList
    fork := some ⟨false, false⟩
    sigint_wait := false }

/-- The string `change_dir` hands to `chdir` for a given home directory and a target that
`handle_quotes` has accepted and rewritten to `d`: `d` itself when it does not begin with
`~`, else the home directory followed by the rest of `d` after the `~`, cut to its first
`BUF_SIZE - 1` characters. -/
def new_dir_of (home d : CStr) : CStr :=
  if d.head? = some '~' then (home ++ d.drop 1).take (BUF_SIZE - 1) else d

/-- The line `cd "<name>"` followed by a newline. -/
def cd_quoted (name : CStr) : CStr := "cd \"".toList ++ name ++ "\"\n".toList

/-- The command line `a a ... a`: `n + 1` one-letter tokens separated by single spaces. -/
def spaced_tokens : Nat → CStr
  | 0 => ['a']
  | n + 1 => 'a' :: ' ' :: spaced_tokens n

/-- A child killed by a signal, as `waitpid` reports it. -/
def killed : WaitStatus := ⟨true, false⟩

/-! # Theorems -/

/-! ## Checks on concrete inputs -/

/-- The function `handle_quotes` on four targets: quoted, badly closed, with inner double
quotes, and not starting with a double quote. -/
theorem handle_quotes_checks :
    handle_quotes (some "\"a b\"".toList) = (0, some "a b".toList) ∧
    handle_quotes (some "\"a\"b".toList) = (1, some "\"a\"b".toList) ∧
    handle_quotes (some "\"a\"\"b\"".toList) = (0, some "ab".toList) ∧
    handle_quotes (some "a\"b".toList) = (0, some "a\"b".toList) := by
  decide

/-- The function `strtok` on four strings; with the delimiters `"\t\n"` a leading space
stays in the token. -/
theorem strtok_checks :
    strtok WHITESPACE "cd /tmp\n".toList = (some "cd".toList, "/tmp\n".toList) ∧
    strtok WHITESPACE "  cd\t/tmp\n".toList = (some "cd".toList, "/tmp\n".toList) ∧
    strtok TAB_NEWLINE " /tmp\n".toList = (some " /tmp".toList, []) ∧
    strtok TAB_NEWLINE "\n".toList = (none, []) := by
  decide

/-- The function `exec_cmd` on the command lines of the specification's scenarios. -/
theorem exec_cmd_checks :
    (exec_cmd sample_env false "cd /tmp\n".toList).action = Action.chdir "/tmp".toList ∧
    (exec_cmd sample_env false "cd\n".toList).action = Action.chdir "/home/user".toList ∧
    (exec_cmd sample_env false "cd ~\n".toList).action = Action.chdir "/home/user".toList ∧
    (exec_cmd sample_env false "cd foo bar\n".toList).action = Action.too_many_arguments ∧
    (exec_cmd sample_env false "exit\n".toList).action = Action.exit_success ∧
    (exec_cmd sample_env false "\n".toList).action = Action.nothing ∧
    (exec_cmd sample_env false "ls -la\n".toList).action = Action.launched ∧
    child_args "ls -la\n".toList
      = some [(0, some "ls".toList), (1, some "-la".toList), (2, none)] := by
  decide

/-- Reading a buffer back as a C string stops at the first NUL. -/
theorem cstr_append_nul (s t : List Char) (h : ∀ c ∈ s, c ≠ NUL) :
    cstr (s ++ NUL :: t) = s := by
  induction s with
  | nil => simp [cstr]
  | cons a s ih =>
    have ha : a ≠ NUL := h a (by simp)
    have hs : ∀ c ∈ s, c ≠ NUL := fun c hc => h c (by simp [hc])
    have := ih hs
    simp only [cstr] at this ⊢
    simp [List.takeWhile_cons, ha, this]

/-- The invariant of the loop of `handle_quotes`: with the buffer split into the part
already written (`a`), the gap between `j` and `i` (`m`), the characters still to visit
(`todo`) and the rest (`r`), the loop ends with `a` followed by the characters of `todo`
that are not double quotes, and `r` untouched. -/
theorem quote_loop_spec (len : Nat) (r : List Char) :
    ∀ (todo : List Char) (fuel i j : Nat) (a m : List Char),
      a.length = j → (a ++ m).length = i → m ≠ [] →
      i + todo.length = len - 1 → todo.length ≤ fuel →
      ∃ m2 : List Char, m2 ≠ [] ∧
        quote_loop len fuel i j (a ++ m ++ todo ++ r)
          = ((a ++ todo.filter (fun c => c != '"')).length,
             a ++ todo.filter (fun c => c != '"') ++ m2 ++ r) := by
  intro todo
  induction todo with
  | nil =>
    intro fuel i j a m hj hi hm hlen hfuel
    refine ⟨m, hm, ?_⟩
    have hi2 : ¬ i < len - 1 := by simp at hlen; omega
    cases fuel with
    | zero => simp [quote_loop, hj]
    | succ f => simp [quote_loop, hi2, hj]
  | cons c t ih =>
    intro fuel i j a m hj hi hm hlen hfuel
    cases fuel with
    | zero => simp at hfuel
    | succ f =>
      have hi2 : i < len - 1 := by simp at hlen; omega
      have hget : (a ++ m ++ c :: t ++ r).getD i NUL = c := by
        rw [List.append_assoc (a ++ m), List.getD_append_right _ _ _ _ (by omega)]
        simp [hi]
      obtain ⟨x, m0, rfl⟩ := List.exists_cons_of_ne_nil hm
      by_cases hc : c = '"'
      · obtain ⟨m2, hm2, h2⟩ := ih f (i + 1) j a (x :: m0 ++ [c]) hj
          (by simp at hi ⊢; omega) (by simp) (by simp at hlen ⊢; omega)
          (by simp at hfuel ⊢; omega)
        refine ⟨m2, hm2, ?_⟩
        rw [quote_loop, if_pos hi2, hget, if_neg (by simp [hc])]
        have hf : (c :: t).filter (fun c => c != '"') = t.filter (fun c => c != '"') := by
          simp [List.filter_cons, hc]
        rw [hf, ← h2]
        simp
      · obtain ⟨m2, hm2, h2⟩ := ih f (i + 1) (j + 1) (a ++ [c]) (m0 ++ [c])
          (by simp [hj]) (by simp at hi ⊢; omega) (by simp) (by simp at hlen ⊢; omega)
          (by simp at hfuel ⊢; omega)
        refine ⟨m2, hm2, ?_⟩
        have hset : (a ++ (x :: m0) ++ c :: t ++ r).set j c
            = a ++ [c] ++ (m0 ++ [c]) ++ t ++ r := by
          subst hj
          simp [List.set_append]
        rw [quote_loop, if_pos hi2, hget, if_pos (by simp [hc]), hset, h2]
        have hf : (c :: t).filter (fun c => c != '"') = c :: t.filter (fun c => c != '"') := by
          simp [List.filter_cons, hc]
        rw [hf]
        simp

/-- The length `strlen` computes for a NUL-terminated string. -/
theorem strlen_append_nul (s : List Char) (h : ∀ c ∈ s, c ≠ NUL) :
    strlen (s ++ [NUL]) = s.length := by
  simp [strlen, cstr_append_nul s [] h]

/-- On a target enclosed in double quotes `handle_quotes` succeeds and leaves the inner
characters that are not double quotes. -/
theorem handle_quotes_quoted (mid : List Char) (h : ∀ c ∈ mid, c ≠ NUL) :
    handle_quotes (some ('"' :: mid ++ ['"']))
      = (0, some (mid.filter (fun c => c != '"'))) := by
  have hq : ('"' : Char) ≠ NUL := by decide
  have hall : ∀ c ∈ '"' :: mid ++ ['"'], c ≠ NUL := by
    intro c hc
    simp at hc
    rcases hc with rfl | hc | rfl
    · exact hq
    · exact h c hc
    · exact hq
  have hlen : strlen (('"' :: mid ++ ['"']) ++ [NUL]) = mid.length + 2 := by
    rw [strlen_append_nul _ hall]; simp
  obtain ⟨m2, hm2, hloop⟩ := quote_loop_spec (mid.length + 2) ['"', NUL] mid
    (mid.length + 2) 1 0 [] ['"'] rfl rfl (by simp) (by omega) (by omega)
  have hbuf : ('"' :: mid ++ ['"']) ++ [NUL] = [] ++ ['"'] ++ mid ++ ['"', NUL] := by simp
  have hlast : (('"' :: mid ++ ['"']) ++ [NUL]).getD (mid.length + 2 - 1) NUL = '"' := by
    have : ('"' :: mid ++ ['"']) ++ [NUL] = ('"' :: mid) ++ ['"', NUL] := by simp
    rw [this, List.getD_append_right _ _ _ _ (by simp)]
    simp
  obtain ⟨y, m3, rfl⟩ := List.exists_cons_of_ne_nil hm2
  have hfil : ∀ c ∈ mid.filter (fun c => c != '"'), c ≠ NUL := by
    intro c hc
    exact h c (List.mem_filter.mp hc).1
  simp only [handle_quotes, hlen]
  rw [if_pos (by simp), if_neg (by rw [hlast]; simp), hbuf, hloop]
  simp only [List.nil_append]
  have hset : (mid.filter (fun c => c != '"') ++ y :: m3 ++ ['"', NUL]).set
      (mid.filter (fun c => c != '"')).length NUL
      = mid.filter (fun c => c != '"') ++ NUL :: (m3 ++ ['"', NUL]) := by
    simp [List.set_append]
  rw [hset, cstr_append_nul _ _ hfil]

/-- The function `handle_quotes` agrees with `handle_quotes_ref` on every C string. -/
theorem handle_quotes_some (target : CStr) (h : ∀ c ∈ target, c ≠ NUL) :
    handle_quotes (some target)
      = ((handle_quotes_ref target).1, some (handle_quotes_ref target).2) := by
  have hq : ('"' : Char) ≠ NUL := by decide
  cases target with
  | nil => decide
  | cons x xs =>
    by_cases hx : x = '"'
    · subst hx
      rcases List.eq_nil_or_concat xs with rfl | ⟨mid, y, rfl⟩
      · decide
      · simp only [List.concat_eq_append] at h ⊢
        by_cases hy : y = '"'
        · subst hy
          have hmid : ∀ c ∈ mid, c ≠ NUL := fun c hc => h c (by simp [hc])
          have hl : ('"' :: (mid ++ ['"'])).getLast? = some '"' :=
            List.getLast?_concat ('"' :: mid)
          have hk := handle_quotes_quoted mid hmid
          rw [List.cons_append] at hk
          rw [hk]
          simp [handle_quotes_ref, List.filter_cons, hl, List.filter_append]
        · have hlen : strlen (('"' :: (mid ++ [y])) ++ [NUL]) = mid.length + 2 := by
            rw [strlen_append_nul _ h]; simp
          have hlast : (('"' :: (mid ++ [y])) ++ [NUL]).getD (mid.length + 2 - 1) NUL = y := by
            have : ('"' :: (mid ++ [y])) ++ [NUL] = ('"' :: mid) ++ [y, NUL] := by simp
            rw [this, List.getD_append_right _ _ _ _ (by simp)]
            simp
          have hc : cstr (('"' :: (mid ++ [y])) ++ [NUL]) = '"' :: (mid ++ [y]) :=
            cstr_append_nul _ [] h
          have hl : ('"' :: (mid ++ [y])).getLast? = some y :=
            List.getLast?_concat ('"' :: mid)
          simp only [handle_quotes, hlen, hlast, hc]
          simp [handle_quotes_ref, hy, hl]
    · have hc : cstr ((x :: xs) ++ [NUL]) = x :: xs := cstr_append_nul _ [] h
      simp only [handle_quotes, hc]
      simp [handle_quotes_ref, hx]

/-! ## Claim C5: `handle_quotes` against its reference definition -/

/-- Claim C5 (refinement): on every non-null target (a C string, hence without NUL),
`handle_quotes` returns the status and the string of its reference definition: failure
with the string unchanged when the target begins with a double quote and is one character
long or does not end with one; success with every double quote removed when it begins and
ends with one and is longer; success with the string unchanged otherwise. -/
theorem handle_quotes_refines_ref (target : CStr) (h : ∀ c ∈ target, c ≠ NUL) :
    handle_quotes (some target)
      = ((handle_quotes_ref target).1, some (handle_quotes_ref target).2) :=
  handle_quotes_some target h

/-- The witness for `handle_quotes_refines_ref`: the target `"a "b"` loses its three
double quotes. -/
theorem handle_quotes_refines_ref_witness :
    (∀ c ∈ "\"a \"b\"".toList, c ≠ NUL) ∧
    handle_quotes (some "\"a \"b\"".toList) = (0, some "a b".toList) :=
  ⟨by decide, handle_quotes_refines_ref "\"a \"b\"".toList (by decide)⟩

/-! ## The quote scan -/

/-- The scan stops with "Too many arguments" exactly when the string holds a space at
even quote parity, counted from the running count `q`. -/
theorem scan_quotes_none_iff (s : CStr) :
    ∀ q : Nat, scan_quotes s q = none ↔
      ∃ pre post : List Char, s = pre ++ ' ' :: post ∧ (q + pre.count '"') % 2 = 0 := by
  induction s with
  | nil =>
    intro q
    simp [scan_quotes]
  | cons c cs ih =>
    intro q
    by_cases hc : c = '"'
    · subst hc
      simp only [scan_quotes, if_true]
      rw [ih (q + 1)]
      constructor
      · rintro ⟨pre, post, rfl, hp⟩
        exact ⟨'"' :: pre, post, rfl, by simp [List.count_cons]; omega⟩
      · rintro ⟨pre, post, heq, hp⟩
        cases pre with
        | nil => simp at heq
        | cons x pre2 =>
          simp only [List.cons_append, List.cons.injEq] at heq
          obtain ⟨rfl, rfl⟩ := heq
          exact ⟨pre2, post, rfl, by simp [List.count_cons] at hp; omega⟩
    · by_cases hs : c = ' ' ∧ q % 2 = 0
      · obtain ⟨rfl, hq⟩ := hs
        have hnone : scan_quotes (' ' :: cs) q = none := by simp [scan_quotes, hq]
        rw [hnone]
        simp only [true_iff]
        exact ⟨[], cs, rfl, by simpa using hq⟩
      · simp only [scan_quotes, hc, if_false, hs]
        rw [ih q]
        constructor
        · rintro ⟨pre, post, rfl, hp⟩
          exact ⟨c :: pre, post, rfl, by simpa [List.count_cons, hc] using hp⟩
        · rintro ⟨pre, post, heq, hp⟩
          cases pre with
          | nil =>
            simp only [List.nil_append, List.cons.injEq] at heq
            exact absurd ⟨heq.1, by simpa using hp⟩ hs
          | cons x pre2 =>
            simp only [List.cons_append, List.cons.injEq] at heq
            obtain ⟨rfl, rfl⟩ := heq
            exact ⟨pre2, post, rfl, by simpa [List.count_cons, hc] using hp⟩

/-- When the scan runs to the end, its count has grown by the number of double quotes. -/
theorem scan_quotes_some (s : CStr) :
    ∀ q n : Nat, scan_quotes s q = some n → n = q + s.count '"' := by
  induction s with
  | nil =>
    intro q n h
    simpa [scan_quotes, eq_comm] using h
  | cons c cs ih =>
    intro q n h
    by_cases hc : c = '"'
    · subst hc
      simp only [scan_quotes, if_true] at h
      have := ih (q + 1) n h
      simp [List.count_cons]; omega
    · by_cases hs : c = ' ' ∧ q % 2 = 0
      · simp [scan_quotes, hc, hs] at h
      · simp only [scan_quotes, hc, if_false, hs] at h
        have := ih q n h
        have hc2 : ¬ ('"' = c) := fun e => hc e.symm
        simpa [List.count_cons, hc, hc2] using this

/-- A bare space stops the scan. -/
theorem scan_quotes_bare (s : CStr) (h : bare_space s) : scan_quotes s 0 = none := by
  obtain ⟨pre, post, rfl, hp⟩ := h
  exact (scan_quotes_none_iff _ 0).2 ⟨pre, post, rfl, by simpa using hp⟩

/-- Without a bare space the scan ends with the number of double quotes. -/
theorem scan_quotes_no_bare (s : CStr) (h : ¬ bare_space s) :
    scan_quotes s 0 = some (s.count '"') := by
  cases hsc : scan_quotes s 0 with
  | none =>
    obtain ⟨pre, post, rfl, hp⟩ := (scan_quotes_none_iff _ 0).1 hsc
    exact absurd ⟨pre, post, rfl, by simpa using hp⟩ h
  | some n =>
    have := scan_quotes_some s 0 n hsc
    simp [this]

/-! ## `strtok` -/

/-- The first element `dropWhile` keeps fails the test. -/
theorem dropWhile_head_false {p : Char → Bool} :
    ∀ {l : List Char} {x : Char} {r : List Char}, l.dropWhile p = x :: r → p x = false := by
  intro l
  induction l with
  | nil => intro x r h; simp at h
  | cons a l ih =>
    intro x r h
    by_cases ha : p a = true
    · rw [List.dropWhile_cons_of_pos ha] at h
      exact ih h
    · rw [List.dropWhile_cons_of_neg ha] at h
      simp only [List.cons.injEq] at h
      rw [← h.1]
      simpa using ha

/-- On a string of delimiters `strtok` returns `NULL`. -/
theorem strtok_none_of_delims (D : List Char) (s : CStr) (h : ∀ c ∈ s, c ∈ D) :
    strtok D s = (none, []) := by
  have hd : s.dropWhile (fun c => decide (c ∈ D)) = [] := by
    rw [List.dropWhile_eq_nil_iff]
    intro x hx
    simpa using h x hx
  simp only [strtok, hd]

/-- The function `strtok` on leading delimiters, a token, a delimiter and a rest. -/
theorem strtok_token_delim (D : List Char) (pre tok rest : List Char) (d : Char)
    (hpre : ∀ c ∈ pre, c ∈ D) (hne : tok ≠ []) (htok : ∀ c ∈ tok, c ∉ D) (hd : d ∈ D) :
    strtok D (pre ++ tok ++ d :: rest) = (some tok, rest) := by
  obtain ⟨x, xs, rfl⟩ := List.exists_cons_of_ne_nil hne
  have hx : x ∉ D := htok x (by simp)
  have h1 : (pre ++ (x :: xs) ++ d :: rest).dropWhile (fun c => decide (c ∈ D))
      = x :: (xs ++ d :: rest) := by
    rw [List.append_assoc, List.dropWhile_append_of_pos (by simpa using hpre)]
    simp [List.dropWhile_cons, hx]
  have h2 : (x :: (xs ++ d :: rest)).takeWhile (fun c => !decide (c ∈ D)) = x :: xs := by
    rw [← List.cons_append, List.takeWhile_append_of_pos (by simpa using htok)]
    simp [List.takeWhile_cons, hd]
  have h3 : (x :: (xs ++ d :: rest)).dropWhile (fun c => !decide (c ∈ D)) = d :: rest := by
    rw [← List.cons_append, List.dropWhile_append_of_pos (by simpa using htok)]
    simp [List.dropWhile_cons, hd]
  simp only [strtok, h1, h2, h3, List.drop_succ_cons, List.drop_zero]

/-- The function `strtok` on leading delimiters and a token that reaches the end. -/
theorem strtok_token_end (D : List Char) (pre tok : List Char)
    (hpre : ∀ c ∈ pre, c ∈ D) (hne : tok ≠ []) (htok : ∀ c ∈ tok, c ∉ D) :
    strtok D (pre ++ tok) = (some tok, []) := by
  obtain ⟨x, xs, rfl⟩ := List.exists_cons_of_ne_nil hne
  have hx : x ∉ D := htok x (by simp)
  have h1 : (pre ++ (x :: xs)).dropWhile (fun c => decide (c ∈ D)) = x :: xs := by
    rw [List.dropWhile_append_of_pos (by simpa using hpre)]
    simp [List.dropWhile_cons, hx]
  have h2 : (x :: xs).takeWhile (fun c => !decide (c ∈ D)) = x :: xs := by
    rw [List.takeWhile_eq_self_iff]
    simpa using htok
  have h3 : (x :: xs).dropWhile (fun c => !decide (c ∈ D)) = [] := by
    rw [List.dropWhile_eq_nil_iff]
    simpa using htok
  simp only [strtok, h1, h2, h3, List.drop_nil]

/-- When `strtok` returns `NULL` the string holds only delimiters. -/
theorem strtok_none_delims (D : List Char) (s r : CStr) (h : strtok D s = (none, r)) :
    ∀ c ∈ s, c ∈ D := by
  unfold strtok at h
  split at h
  · rename_i hd
    rw [List.dropWhile_eq_nil_iff] at hd
    intro c hc
    simpa using hd c hc
  · simp at h

/-- When `strtok` returns a token, the string is made of leading delimiters, the token
(not empty, free of delimiters), and then either nothing or one delimiter and the saved
rest. -/
theorem strtok_some_shape (D : List Char) (s tok rest : CStr)
    (h : strtok D s = (some tok, rest)) :
    ∃ pre sep : List Char, s = pre ++ tok ++ sep ++ rest ∧ (∀ c ∈ pre, c ∈ D) ∧
      tok ≠ [] ∧ (∀ c ∈ tok, c ∉ D) ∧
      ((sep = [] ∧ rest = []) ∨ ∃ d, d ∈ D ∧ sep = [d]) := by
  unfold strtok at h
  split at h
  · simp at h
  · rename_i c cs hd
    simp only [Prod.mk.injEq, Option.some.injEq] at h
    obtain ⟨htok, hrest⟩ := h
    have hc : c ∉ D := by simpa using dropWhile_head_false hd
    have hs : s = s.takeWhile (fun c => decide (c ∈ D)) ++ (c :: cs) := by
      rw [← hd, List.takeWhile_append_dropWhile]
    have hsplit : c :: cs = tok ++ (c :: cs).dropWhile (fun x => !decide (x ∈ D)) := by
      rw [← htok, List.takeWhile_append_dropWhile]
    have hpre : ∀ x ∈ s.takeWhile (fun c => decide (c ∈ D)), x ∈ D := by
      intro x hx
      simpa using List.mem_takeWhile_imp hx
    have hne : tok ≠ [] := by
      rw [← htok, List.takeWhile_cons_of_pos (by simpa using hc)]
      simp
    have hnd : ∀ x ∈ tok, x ∉ D := by
      intro x hx
      rw [← htok] at hx
      simpa using List.mem_takeWhile_imp hx
    cases hdw : (c :: cs).dropWhile (fun x => !decide (x ∈ D)) with
    | nil =>
      rw [hdw] at hsplit hrest
      simp only [List.drop_nil] at hrest
      refine ⟨_, [], ?_, hpre, hne, hnd, Or.inl ⟨rfl, hrest.symm⟩⟩
      calc s = s.takeWhile (fun c => decide (c ∈ D)) ++ (c :: cs) := hs
        _ = s.takeWhile (fun c => decide (c ∈ D)) ++ tok ++ [] ++ rest := by
            rw [hsplit, ← hrest]; simp
    | cons d r2 =>
      rw [hdw] at hsplit hrest
      have hdD : d ∈ D := by simpa using dropWhile_head_false hdw
      simp only [List.drop_succ_cons, List.drop_zero] at hrest
      refine ⟨_, [d], ?_, hpre, hne, hnd, Or.inr ⟨d, hdD, rfl⟩⟩
      calc s = s.takeWhile (fun c => decide (c ∈ D)) ++ (c :: cs) := hs
        _ = s.takeWhile (fun c => decide (c ∈ D)) ++ tok ++ [d] ++ rest := by
            rw [hsplit, ← hrest]; simp

/-! ## The `cd` built-in -/

/-- The scan of a concatenation: the second part is scanned from the count the first part
leaves, unless the first part stops the scan. -/
theorem scan_quotes_append (a b : CStr) :
    ∀ q : Nat, scan_quotes (a ++ b) q = (scan_quotes a q).bind (scan_quotes b) := by
  induction a with
  | nil => intro q; simp [scan_quotes]
  | cons c cs ih =>
    intro q
    by_cases hc : c = '"'
    · simp [scan_quotes, hc, ih]
    · by_cases hs : c = ' ' ∧ q % 2 = 0
      · simp [scan_quotes, hc, hs]
      · simp only [List.cons_append, scan_quotes, hc, if_false, hs]
        exact ih q

/-- Tabs and newlines do not change the count and do not stop the scan. -/
theorem scan_quotes_tab_newline (s : CStr) (h : ∀ c ∈ s, c ∈ TAB_NEWLINE) :
    ∀ q : Nat, scan_quotes s q = some q := by
  induction s with
  | nil => intro q; simp [scan_quotes]
  | cons c cs ih =>
    intro q
    have hc : c ∈ TAB_NEWLINE := h c (by simp)
    have hcs : ∀ x ∈ cs, x ∈ TAB_NEWLINE := fun x hx => h x (by simp [hx])
    have h1 : c ≠ '"' := by
      rintro rfl
      exact absurd hc (by decide)
    have h2 : c ≠ ' ' := by
      rintro rfl
      exact absurd hc (by decide)
    simp only [scan_quotes, h1, h2, if_false, false_and]
    exact ih hcs q

/-- A string of tabs and newlines holds no double quote. -/
theorem count_quote_tab_newline (s : CStr) (h : ∀ c ∈ s, c ∈ TAB_NEWLINE) :
    s.count '"' = 0 := by
  rw [List.count_eq_zero]
  intro hq
  exact absurd (h _ hq) (by decide)

/-- When `cd` has a single tab/newline-delimited argument, the quote scan sees in it
what it would see in the whole remainder of the line. -/
theorem single_token_scan (save dir save2 : CStr) (r : CStr)
    (hdir : strtok TAB_NEWLINE save = (some dir, save2))
    (hone : strtok TAB_NEWLINE save2 = (none, r)) :
    scan_quotes save 0 = scan_quotes dir 0 ∧ save.count '"' = dir.count '"' := by
  obtain ⟨pre, sep, hs, hpre, _, _, hsep⟩ := strtok_some_shape _ _ _ _ hdir
  have h2 : ∀ c ∈ save2, c ∈ TAB_NEWLINE := strtok_none_delims _ _ _ hone
  have hsep2 : ∀ c ∈ sep, c ∈ TAB_NEWLINE := by
    rcases hsep with ⟨rfl, _⟩ | ⟨d, hd, rfl⟩
    · simp
    · intro c hc
      simp only [List.mem_singleton] at hc
      exact hc ▸ hd
  constructor
  · rw [hs, scan_quotes_append, scan_quotes_append, scan_quotes_append,
      scan_quotes_tab_newline pre hpre]
    simp only [Option.some_bind]
    cases hsc : scan_quotes dir 0 with
    | none => simp
    | some n =>
      simp [scan_quotes_tab_newline sep hsep2, scan_quotes_tab_newline save2 h2]
  · rw [hs]
    simp [List.count_append, count_quote_tab_newline pre hpre,
      count_quote_tab_newline sep hsep2, count_quote_tab_newline save2 h2]

/-- The predicate `bare_space` is what stops the scan started at count 0. -/
theorem bare_space_iff_scan (s : CStr) : bare_space s ↔ scan_quotes s 0 = none := by
  constructor
  · exact scan_quotes_bare s
  · intro h
    obtain ⟨pre, post, rfl, hp⟩ := (scan_quotes_none_iff _ 0).1 h
    exact ⟨pre, post, rfl, by simpa using hp⟩

/-- What the end of the `cd` branch does with an argument, by cases on the argument. -/
theorem cd_validate_cases (home_dir : Option CStr) (dir : CStr) :
    (bare_space dir → cd_validate home_dir dir = Action.too_many_arguments) ∧
    (¬ bare_space dir → dir.count '"' % 2 = 1 →
      cd_validate home_dir dir = Action.malformed_command) ∧
    (¬ bare_space dir → dir.count '"' % 2 = 0 →
      cd_validate home_dir dir = change_dir home_dir (some dir)) := by
  refine ⟨?_, ?_, ?_⟩
  · intro h
    simp [cd_validate, scan_quotes_bare dir h]
  · intro h hodd
    simp [cd_validate, scan_quotes_no_bare dir h, hodd]
  · intro h heven
    simp [cd_validate, scan_quotes_no_bare dir h, heven]

/-- The `cd` branch of `exec_cmd` in terms of `cd_builtin`. -/
theorem exec_cmd_cd (env : Env) (interrupted : Bool) (command save : CStr)
    (hcd : strtok WHITESPACE command = (some "cd".toList, save)) :
    (exec_cmd env interrupted command).action = cd_builtin env.home_dir save := by
  simp only [exec_cmd, hcd]
  rw [if_neg (by decide)]
  simp

/-! ## Claim C1: reconciliation after `waitpid` -/

/-- Claim C1 as stated fails: with the flag set on entry and a child that exited normally,
the reconciliation writes one newline but returns with the flag clear; with the flag set
on entry and a child killed by a signal it writes two newlines. -/
theorem reconcile_flag_counterexample :
    reconcile true ⟨false, false⟩ = (false, ['\n']) ∧
    reconcile true ⟨true, false⟩ = (true, ['\n', '\n']) ∧
    ¬ ((reconcile true ⟨false, false⟩).1 = true ∧
        (reconcile true ⟨false, false⟩).2 = ['\n']) := by
  decide

/-- Claim C1 (amended): for every value of the flag on entry and every termination status,
on return the flag is set exactly when the status says the child was terminated or stopped
by a signal (the value on entry is overwritten), and standard output has received only
newlines: one if the flag was set on entry, plus one if the status says terminated or
stopped by a signal. -/
theorem reconcile_flag_and_newlines (interrupted : Bool) (status : WaitStatus) :
    (reconcile interrupted status).1 = (status.WIFSIGNALED || status.WIFSTOPPED) ∧
    (reconcile interrupted status).2
      = List.replicate
          (interrupted.toNat + (status.WIFSIGNALED || status.WIFSTOPPED).toNat) '\n' := by
  obtain ⟨s1, s2⟩ := status
  cases interrupted <;> cases s1 <;> cases s2 <;> decide

/-! ## Claim C2: an odd number of double quotes -/

/-- Claim C2 as stated fails: the remainder of `cd a "b` holds one double quote, yet the
scan stops at the bare space first and "Too many arguments" is reported, not
"Malformed command". -/
theorem cd_odd_quotes_counterexample :
    strtok WHITESPACE "cd a \"b\n".toList = (some "cd".toList, "a \"b\n".toList) ∧
    "a \"b\n".toList.count '"' % 2 = 1 ∧
    (exec_cmd sample_env false "cd a \"b\n".toList).action = Action.too_many_arguments ∧
    (exec_cmd sample_env false "cd a \"b\n".toList).action ≠ Action.malformed_command := by
  decide

/-- Claim C2 (amended): for every input line whose first token is `cd`, whose remainder
holds an odd number of double quotes and whose first tab/newline-delimited argument is
not the bare `~`, no directory change is attempted: "Malformed command" is reported when
that argument is the only one and has no space outside a quoted span, and "Too many
arguments" otherwise. -/
theorem cd_odd_quotes (env : Env) (interrupted : Bool) (command save dir save2 : CStr)
    (hcd : strtok WHITESPACE command = (some "cd".toList, save))
    (hdir : strtok TAB_NEWLINE save = (some dir, save2))
    (hodd : save.count '"' % 2 = 1)
    (htilde : dir ≠ ['~']) :
    ((strtok TAB_NEWLINE save2).1 = none → ¬ bare_space dir →
      (exec_cmd env interrupted command).action = Action.malformed_command) ∧
    ((strtok TAB_NEWLINE save2).1 ≠ none ∨ bare_space dir →
      (exec_cmd env interrupted command).action = Action.too_many_arguments) ∧
    (∀ new_dir, (exec_cmd env interrupted command).action ≠ Action.chdir new_dir) := by
  rw [exec_cmd_cd env interrupted command save hcd]
  cases hx : strtok TAB_NEWLINE save2 with
  | mk tok2 r =>
    cases tok2 with
    | some t =>
      simp [cd_builtin, hdir, htilde, hx]
    | none =>
      have hcount := (single_token_scan save dir save2 r hdir hx).2
      rw [hcount] at hodd
      have hcases := cd_validate_cases env.home_dir dir
      simp only [cd_builtin, hdir, htilde, hx, if_false]
      refine ⟨fun _ hb => hcases.2.1 hb hodd, fun h => ?_, fun new_dir => ?_⟩
      · rcases h with h | h
        · exact absurd rfl h
        · exact hcases.1 h
      · by_cases hb : bare_space dir
        · rw [hcases.1 hb]
          simp
        · rw [hcases.2.1 hb hodd]
          simp

/-- The witness for `cd_odd_quotes`: the line `cd "a`. -/
theorem cd_odd_quotes_witness :
    (exec_cmd sample_env false "cd \"a\n".toList).action = Action.malformed_command :=
  (cd_odd_quotes sample_env false "cd \"a\n".toList "\"a\n".toList "\"a".toList []
    (by decide) (by decide) (by decide) (by decide)).1 (by decide)
    (by
      rw [bare_space_iff_scan]
      decide)

/-! ## Claim C3: a bare space -/

/-- Claim C3 fails on the code at `cd ~<TAB>a b`: the remainder holds a space preceded by
no double quote, yet the early return for `~` comes before the argument checks, nothing
is reported and the directory is changed to the home directory. -/
theorem cd_tilde_skips_argument_checks :
    strtok WHITESPACE "cd ~\ta b\n".toList = (some "cd".toList, "~\ta b\n".toList) ∧
    bare_space "~\ta b\n".toList ∧
    (exec_cmd sample_env false "cd ~\ta b\n".toList).action
      = Action.chdir "/home/user".toList ∧
    (exec_cmd sample_env false "cd x\ta b\n".toList).action = Action.too_many_arguments := by
  refine ⟨by decide, ?_, by decide, by decide⟩
  rw [bare_space_iff_scan]
  decide

/-- Outside that early return the property of claim C3 holds: for every input line whose
first token is `cd`, whose remainder holds a space preceded by an even number of double
quotes and whose first tab/newline-delimited argument is not the bare `~`, "Too many
arguments" is reported and no directory change is attempted. -/
theorem cd_bare_space_of_not_tilde (env : Env) (interrupted : Bool)
    (command save dir save2 : CStr)
    (hcd : strtok WHITESPACE command = (some "cd".toList, save))
    (hdir : strtok TAB_NEWLINE save = (some dir, save2))
    (hbare : bare_space save)
    (htilde : dir ≠ ['~']) :
    (exec_cmd env interrupted command).action = Action.too_many_arguments := by
  rw [exec_cmd_cd env interrupted command save hcd]
  cases hx : strtok TAB_NEWLINE save2 with
  | mk tok2 r =>
    cases tok2 with
    | some t =>
      simp [cd_builtin, hdir, htilde, hx]
    | none =>
      have hscan := (single_token_scan save dir save2 r hdir hx).1
      rw [bare_space_iff_scan, hscan, ← bare_space_iff_scan] at hbare
      simp only [cd_builtin, hdir, htilde, hx, if_false]
      exact (cd_validate_cases env.home_dir dir).1 hbare

/-! ## Claim C4: well-quoted targets -/

/-- Claim C4 as stated fails: the target `"a"b` holds two double quotes and no space, it
passes the scan of `exec_cmd`, and `handle_quotes` then rejects it with "Malformed
command" because it begins with a double quote and does not end with one. -/
theorem cd_well_quoted_counterexample :
    "\"a\"b".toList.count '"' % 2 = 0 ∧
    ' ' ∉ "\"a\"b".toList ∧
    cd_validate (some "/home/user".toList) "\"a\"b".toList = Action.malformed_command ∧
    (exec_cmd sample_env false "cd \"a\"b\n".toList).action = Action.malformed_command := by
  decide

/-- Once `handle_quotes` accepts the target, `change_dir` calls `chdir` on `new_dir_of`. -/
theorem change_dir_accepted (home dir d : CStr) (h : handle_quotes (some dir) = (0, some d)) :
    change_dir (some home) (some dir) = Action.chdir (new_dir_of home d) := by
  simp only [change_dir, h, new_dir_of]
  by_cases hd : d.head? = some '~'
  · simp [hd]
  · simp [hd]

/-- When the scan is not stopped, every space stands after an odd number of double
quotes. -/
theorem spaces_quoted_of_scan (dir : CStr) (h : scan_quotes dir 0 ≠ none) :
    ∀ pre post : List Char, dir = pre ++ ' ' :: post → pre.count '"' % 2 = 1 := by
  intro pre post hd
  by_contra hodd
  exact h ((bare_space_iff_scan dir).1 ⟨pre, post, hd, by omega⟩)

/-- Claim C4 (amended): for every target that holds an even number of double quotes, has
every space after an odd number of them and, when it begins with a double quote, also ends
with one, the scan of `exec_cmd` followed by `change_dir` reports neither "Malformed
command" nor "Too many arguments"; when the home directory lookup succeeds the directory
change is attempted, on the target with its double quotes removed if it began with one,
and, when what is left begins with `~`, on the home directory followed by the rest after
the `~`, cut to its first `BUF_SIZE - 1 = 4095` characters (`new_dir_of`). -/
theorem cd_well_quoted (home_dir : Option CStr) (dir : CStr)
    (hnul : ∀ c ∈ dir, c ≠ NUL)
    (heven : dir.count '"' % 2 = 0)
    (hspace : ∀ pre post : List Char, dir = pre ++ ' ' :: post → pre.count '"' % 2 = 1)
    (hends : dir.head? = some '"' → dir.getLast? = some '"') :
    cd_validate home_dir dir ≠ Action.malformed_command ∧
    cd_validate home_dir dir ≠ Action.too_many_arguments ∧
    (∀ home, home_dir = some home →
      cd_validate home_dir dir
        = Action.chdir (new_dir_of home
            (if dir.head? = some '"' then dir.filter (fun c => c != '"') else dir))) := by
  have hnb : ¬ bare_space dir := by
    rintro ⟨pre, post, h, hp⟩
    have := hspace pre post h
    omega
  rw [(cd_validate_cases home_dir dir).2.2 hnb heven]
  have href : handle_quotes_ref dir
      = (0, if dir.head? = some '"' then dir.filter (fun c => c != '"') else dir) := by
    unfold handle_quotes_ref
    by_cases hh : dir.head? = some '"'
    · have hl := hends hh
      have hlen : dir.length ≠ 1 := by
        intro h1
        match dir, h1, hh, heven with
        | [x], _, hh, heven =>
          simp only [List.head?_cons, Option.some.injEq] at hh
          subst hh
          simp at heven
      simp [hh, hl, hlen]
    · simp [hh]
  have hq : handle_quotes (some dir)
      = (0, some (if dir.head? = some '"' then dir.filter (fun c => c != '"') else dir)) := by
    rw [handle_quotes_some dir hnul, href]
  cases home_dir with
  | none => simp [change_dir]
  | some home =>
    rw [change_dir_accepted home dir _ hq]
    refine ⟨by simp, by simp, ?_⟩
    intro home2 h2
    simp only [Option.some.injEq] at h2
    rw [h2]

/-- The witness for `cd_well_quoted`: the target `"a b"`. -/
theorem cd_well_quoted_witness :
    cd_validate (some "/home/user".toList) "\"a b\"".toList = Action.chdir "a b".toList :=
  (cd_well_quoted (some "/home/user".toList) "\"a b\"".toList (by decide) (by decide)
    (spaces_quoted_of_scan _ (by decide)) (by decide)).2.2 _ rfl

/-! ## Claim C6: the argument-count policy -/

/-- Claim C6 as stated fails: the whitespace-delimited tokens of `cd foo ` (a space after
the argument) are `cd` and `foo`, one argument without double quote, yet the scan meets
the trailing space outside any quoted span and "Too many arguments" is reported. -/
theorem cd_trailing_space_counterexample :
    child_args "cd foo \n".toList
      = some [(0, some "cd".toList), (1, some "foo".toList), (2, none)] ∧
    '"' ∉ "foo".toList ∧
    (exec_cmd sample_env false "cd foo \n".toList).action = Action.too_many_arguments := by
  decide

/-- A target that does not begin with a double quote is left as it is. -/
theorem handle_quotes_plain (dir : CStr) (hnul : ∀ c ∈ dir, c ≠ NUL)
    (hq : dir.head? ≠ some '"') : handle_quotes (some dir) = (0, some dir) := by
  rw [handle_quotes_some dir hnul]
  simp [handle_quotes_ref, hq]

/-- Claim C6 (amended): for every input line whose first token is `cd` and whose remainder
holds no space and no double quote and splits on tab and newline into no token or exactly
one token, and when the home directory lookup succeeds with a path that fits `new_dir`,
the argument is accepted: the directory change is attempted on the home directory (no
token) or on that token with a leading `~` replaced by the home directory, the result cut
to `BUF_SIZE - 1` characters (one token). -/
theorem cd_plain_argument (env : Env) (interrupted : Bool) (command save home : CStr)
    (hcd : strtok WHITESPACE command = (some "cd".toList, save))
    (hhome : env.home_dir = some home)
    (hfit : home.length < BUF_SIZE)
    (hplain : ∀ c ∈ save, c ≠ ' ' ∧ c ≠ '"' ∧ c ≠ NUL) :
    ((strtok TAB_NEWLINE save).1 = none →
      (exec_cmd env interrupted command).action = Action.chdir home) ∧
    (∀ tok save2 : CStr, strtok TAB_NEWLINE save = (some tok, save2) →
      (strtok TAB_NEWLINE save2).1 = none →
      (exec_cmd env interrupted command).action = Action.chdir (new_dir_of home tok)) := by
  rw [exec_cmd_cd env interrupted command save hcd, hhome]
  have hhome_take : (home ++ []).take (BUF_SIZE - 1) = home := by
    rw [List.append_nil, List.take_of_length_le]
    omega
  constructor
  · intro hnone
    cases hx : strtok TAB_NEWLINE save with
    | mk t r =>
      rw [hx] at hnone
      simp only at hnone
      subst hnone
      simp [cd_builtin, hx, change_dir, handle_quotes]
  · intro tok save2 hdir hone
    cases hx : strtok TAB_NEWLINE save2 with
    | mk t r =>
      rw [hx] at hone
      simp only at hone
      subst hone
      by_cases htilde : tok = ['~']
      · subst htilde
        simp only [cd_builtin, hdir, if_true, change_dir, handle_quotes]
        simp only [new_dir_of, List.head?_cons, if_true, List.drop_succ_cons, List.drop_zero,
          hhome_take]
        simp
      · obtain ⟨pre, sep, hs, _, _, _, _⟩ := strtok_some_shape _ _ _ _ hdir
        have htok : ∀ c ∈ tok, c ≠ ' ' ∧ c ≠ '"' ∧ c ≠ NUL := by
          intro c hc
          exact hplain c (by rw [hs]; simp [hc])
        have hnb : ¬ bare_space tok := by
          rintro ⟨p, q, rfl, _⟩
          exact (htok ' ' (by simp)).1 rfl
        have hcount : tok.count '"' = 0 := by
          rw [List.count_eq_zero]
          intro hq
          exact (htok _ hq).2.1 rfl
        have hhead : tok.head? ≠ some '"' := by
          intro hh
          have := List.mem_of_mem_head? hh
          exact (htok _ this).2.1 rfl
        have hval := (cd_validate_cases (some home) tok).2.2 hnb (by simp [hcount])
        simp only [cd_builtin, hdir, htilde, if_false, hx, hval]
        exact change_dir_accepted home tok tok
          (handle_quotes_plain tok (fun c hc => (htok c hc).2.2) hhead)

/-- The witness for `cd_plain_argument`: the line `cd ~/src`. -/
theorem cd_plain_argument_witness :
    (exec_cmd sample_env false "cd ~/src\n".toList).action
      = Action.chdir "/home/user/src".toList :=
  (cd_plain_argument sample_env false "cd ~/src\n".toList "~/src\n".toList
    "/home/user".toList (by decide) rfl (by decide) (by decide)).2
    "~/src".toList [] (by decide) (by decide)

/-! ## Claim C7: a quoted argument with spaces -/

/-- Inside a quoted span (odd count) characters other than double quotes are skipped. -/
theorem scan_quotes_inside (name rest : CStr) (hname : ∀ c ∈ name, c ≠ '"') :
    ∀ q : Nat, q % 2 = 1 → scan_quotes (name ++ rest) q = scan_quotes rest q := by
  induction name with
  | nil => intro q _; rfl
  | cons c cs ih =>
    intro q hq
    have hc : c ≠ '"' := hname c (by simp)
    have hq2 : ¬ q % 2 = 0 := by omega
    simp only [List.cons_append, scan_quotes, hc, if_false, hq2, and_false]
    exact ih (fun x hx => hname x (by simp [hx])) q hq

/-- What `exec_cmd` does with `cd "<name>"` when the home directory is known. -/
theorem exec_cmd_cd_quoted (env : Env) (interrupted : Bool) (home name : CStr)
    (hhome : env.home_dir = some home)
    (hname : ∀ c ∈ name, c ≠ '"' ∧ c ≠ '\t' ∧ c ≠ '\n' ∧ c ≠ NUL) :
    (exec_cmd env interrupted (cd_quoted name)).action
      = Action.chdir (new_dir_of home name) := by
  have hcd : strtok WHITESPACE (cd_quoted name)
      = (some "cd".toList, '"' :: name ++ ['"', '\n']) := by
    have := strtok_token_delim WHITESPACE [] "cd".toList ('"' :: name ++ ['"', '\n']) ' '
      (by simp) (by decide) (by decide) (by decide)
    rw [← this]
    simp [cd_quoted]
  have htokD : ∀ c ∈ '"' :: name ++ ['"'], c ∉ TAB_NEWLINE := by
    intro c hc
    simp only [List.cons_append, List.mem_cons, List.mem_append, List.mem_singleton,
      List.not_mem_nil, or_false] at hc
    rcases hc with rfl | hc | rfl
    · decide
    · have := hname c hc
      simp [TAB_NEWLINE, this.2.1, this.2.2.1]
    · decide
  have hdir : strtok TAB_NEWLINE ('"' :: name ++ ['"', '\n'])
      = (some ('"' :: name ++ ['"']), []) := by
    have := strtok_token_delim TAB_NEWLINE [] ('"' :: name ++ ['"']) [] '\n'
      (by simp) (by simp) htokD (by decide)
    rw [← this]
    simp
  have hnot : ('"' :: name ++ ['"']) ≠ ['~'] := by simp
  have hscan : scan_quotes ('"' :: name ++ ['"']) 0 = some 2 := by
    have h1 := scan_quotes_inside name ['"'] (fun c hc => (hname c hc).1) 1 (by decide)
    have h0 : scan_quotes ('"' :: name ++ ['"']) 0 = scan_quotes (name ++ ['"']) 1 := rfl
    rw [h0, h1]
    rfl
  have hq : handle_quotes (some ('"' :: name ++ ['"'])) = (0, some name) := by
    rw [handle_quotes_quoted name (fun c hc => (hname c hc).2.2.2)]
    have : name.filter (fun c => c != '"') = name := by
      rw [List.filter_eq_self]
      intro c hc
      simpa using (hname c hc).1
    rw [this]
  rw [exec_cmd_cd env interrupted _ _ hcd, hhome]
  simp only [cd_builtin, hdir, hnot, if_false]
  have hnone : strtok TAB_NEWLINE [] = (none, []) := by decide
  simp only [hnone, cd_validate, hscan]
  rw [if_neg (by decide)]
  exact change_dir_accepted home _ name hq

/-- The path built for a target that starts with a tilde. -/
theorem new_dir_of_tilde (home r : CStr) :
    new_dir_of home ('~' :: r) = (home ++ r).take (BUF_SIZE - 1) := by
  simp [new_dir_of]

/-- Claim C7 as stated fails: with the home directory `/home/user` and a name made of `~`
and 4088 letters, the line `cd "<name>"` fits the line buffer (4095 characters), but the
path handed to `chdir` is cut by `snprintf` to 4095 characters, so it is not the home
directory followed by the rest of the name (4098 characters). -/
theorem cd_quoted_tilde_counterexample :
    (cd_quoted ('~' :: List.replicate 4088 'a')).length = BUF_SIZE - 1 ∧
    (exec_cmd sample_env false (cd_quoted ('~' :: List.replicate 4088 'a'))).action
      ≠ Action.chdir ("/home/user".toList ++ List.replicate 4088 'a') ∧
    (exec_cmd sample_env false (cd_quoted ('~' :: List.replicate 4088 'a'))).action
      = Action.chdir (("/home/user".toList ++ List.replicate 4088 'a').take 4095) := by
  have hname : ∀ c ∈ '~' :: List.replicate 4088 'a',
      c ≠ '"' ∧ c ≠ '\t' ∧ c ≠ '\n' ∧ c ≠ NUL := by
    intro c hc
    simp only [List.mem_cons, List.mem_replicate] at hc
    rcases hc with rfl | ⟨_, rfl⟩ <;> decide
  have hact := exec_cmd_cd_quoted sample_env false "/home/user".toList _ rfl hname
  have h1 : ("cd \"".toList).length = 4 := by decide
  have h2 : ("\"\n".toList).length = 2 := by decide
  have h3 : ("/home/user".toList).length = 10 := by decide
  refine ⟨?_, ?_, ?_⟩
  · simp only [cd_quoted, List.length_append, List.length_cons, List.length_replicate, h1, h2,
      BUF_SIZE]
  · rw [hact, new_dir_of_tilde]
    intro h
    have hlen := congrArg (fun a => match a with
      | Action.chdir p => p.length
      | _ => 0) h
    simp only [List.length_take, List.length_append, List.length_replicate, h3, BUF_SIZE] at hlen
    omega
  · rw [hact, new_dir_of_tilde]
    rfl

/-- Claim C7 (amended): for every directory name without double quote, tab, newline (or
NUL), and when the home directory lookup succeeds, the line `cd "<name>"` followed by a
newline is accepted without "Too many arguments" or "Malformed command", and the path
handed to `chdir` is the name itself when it does not begin with `~`, and the home
directory followed by the rest of the name cut to `BUF_SIZE - 1 = 4095` characters when
it does. -/
theorem cd_quoted_name (env : Env) (interrupted : Bool) (home name : CStr)
    (hhome : env.home_dir = some home)
    (hname : ∀ c ∈ name, c ≠ '"' ∧ c ≠ '\t' ∧ c ≠ '\n' ∧ c ≠ NUL) :
    (exec_cmd env interrupted (cd_quoted name)).action ≠ Action.too_many_arguments ∧
    (exec_cmd env interrupted (cd_quoted name)).action ≠ Action.malformed_command ∧
    (name.head? ≠ some '~' →
      (exec_cmd env interrupted (cd_quoted name)).action = Action.chdir name) ∧
    (name.head? = some '~' →
      (exec_cmd env interrupted (cd_quoted name)).action
        = Action.chdir ((home ++ name.drop 1).take (BUF_SIZE - 1))) := by
  rw [exec_cmd_cd_quoted env interrupted home name hhome hname]
  refine ⟨by simp, by simp, ?_, ?_⟩
  · intro h
    simp [new_dir_of, h]
  · intro h
    simp [new_dir_of, h]

/-- The witness for `cd_quoted_name`: `cd "a b"` changes directory to `a b`. -/
theorem cd_quoted_name_witness :
    cd_quoted "a b".toList = "cd \"a b\"\n".toList ∧
    (exec_cmd sample_env false "cd \"a b\"\n".toList).action = Action.chdir "a b".toList :=
  ⟨by decide,
   (cd_quoted_name sample_env false "/home/user".toList "a b".toList rfl (by decide)).2.2.1
     (by decide)⟩

/-! ## Claim C8: which iterations end the process -/

/-- The function `change_dir` never ends the process. -/
theorem change_dir_ne_exit (home_dir dir : Option CStr) :
    change_dir home_dir dir ≠ Action.exit_success := by
  unfold change_dir
  cases home_dir with
  | none => simp
  | some home =>
    simp only
    split
    · simp
    · split
      · simp
      · split <;> simp

/-- The `cd` built-in never ends the process. -/
theorem cd_builtin_ne_exit (home_dir : Option CStr) (save : CStr) :
    cd_builtin home_dir save ≠ Action.exit_success := by
  unfold cd_builtin
  split
  · exact change_dir_ne_exit _ _
  · split
    · exact change_dir_ne_exit _ _
    · split
      · simp
      · unfold cd_validate
        split
        · simp
        · split
          · simp
          · exact change_dir_ne_exit _ _

/-- The built-in `exit` is the only way `exec_cmd` ends the process. -/
theorem exec_cmd_exit_iff (env : Env) (interrupted : Bool) (command : CStr) :
    (exec_cmd env interrupted command).action = Action.exit_success ↔
      (strtok WHITESPACE command).1 = some "exit".toList := by
  unfold exec_cmd
  cases hx : strtok WHITESPACE command with
  | mk tok save =>
    cases tok with
    | none => simp
    | some cmd =>
      by_cases he : cmd = "exit".toList
      · simp [he]
      · simp only [if_neg he, Option.some.injEq, he, iff_false]
        by_cases hc : cmd = "cd".toList
        · rw [if_pos hc]
          exact cd_builtin_ne_exit _ _
        · rw [if_neg hc]
          cases hf : env.fork <;> simp

/-- Claim C8: one iteration of the loop ends the process with success status if and only
if the working directory is available, a line is read, no interrupt is pending at the
check after the read, and the first whitespace-delimited token of the line is `exit`; it
ends the process with failure status if and only if the working directory is unavailable
or the read fails with no interrupt pending; in every other case it returns to the prompt.
The flag seen at the check is the flag on entry, or set by a `SIGINT` delivered during
the read. -/
theorem main_iteration_termination (env : Env) (interrupted : Bool) :
    ((main_iteration env interrupted).step = Step.terminated EXIT_SUCCESS ↔
      env.cwd ≠ none ∧ (interrupted || env.sigint_read) = false ∧
        ∃ line, env.read = some line ∧
          (strtok WHITESPACE line).1 = some "exit".toList) ∧
    ((main_iteration env interrupted).step = Step.terminated EXIT_FAILURE ↔
      env.cwd = none ∨ (env.read = none ∧ (interrupted || env.sigint_read) = false)) ∧
    (¬ (env.cwd ≠ none ∧ (interrupted || env.sigint_read) = false ∧
          ∃ line, env.read = some line ∧
            (strtok WHITESPACE line).1 = some "exit".toList) →
      ¬ (env.cwd = none ∨ (env.read = none ∧ (interrupted || env.sigint_read) = false)) →
      ∃ flag, (main_iteration env interrupted).step = Step.prompt flag) := by
  obtain ⟨cwd, sig, read, home, fork, sigw⟩ := env
  cases cwd with
  | none => simp [main_iteration, EXIT_SUCCESS, EXIT_FAILURE]
  | some cwd =>
    cases read with
    | none =>
      cases interrupted <;> cases sig <;>
        simp [main_iteration, sigint_handler, EXIT_SUCCESS, EXIT_FAILURE]
    | some line =>
      have hex := fun f => exec_cmd_exit_iff ⟨some cwd, sig, some line, home, fork, sigw⟩ f line
      have hexit : "exit".toList = ['e', 'x', 'i', 't'] := rfl
      rw [hexit] at hex ⊢
      cases interrupted <;> cases sig <;>
        simp only [main_iteration, sigint_handler] <;>
        by_cases h : (strtok WHITESPACE line).1 = some ['e', 'x', 'i', 't'] <;>
        simp [h, hex, EXIT_SUCCESS, EXIT_FAILURE]

/-! ## Claim C9: the capacity of the argument vector -/

/-- The length of the line `spaced_tokens n`. -/
theorem spaced_tokens_length (n : Nat) : (spaced_tokens n).length = 2 * n + 1 := by
  induction n with
  | zero => rfl
  | succ n ih => simp [spaced_tokens, ih]; omega

/-- The first token of `spaced_tokens (n + 1)` and the saved position after it. -/
theorem strtok_spaced_succ (n : Nat) :
    strtok WHITESPACE (spaced_tokens (n + 1)) = (some ['a'], spaced_tokens n) :=
  strtok_token_delim WHITESPACE [] ['a'] (spaced_tokens n) ' '
    (by simp) (by simp) (by decide) (by decide)

/-- The only token of `spaced_tokens 0`. -/
theorem strtok_spaced_zero : strtok WHITESPACE (spaced_tokens 0) = (some ['a'], []) := by
  decide

/-- On `spaced_tokens n` the fill loop started at index `i` writes the null entry at index
`i + n + 1`. -/
theorem fill_loop_spaced (n : Nat) :
    ∀ fuel i : Nat, n + 2 ≤ fuel → (i + n + 1, none) ∈ fill_loop fuel i (spaced_tokens n) := by
  induction n with
  | zero =>
    intro fuel i hf
    obtain ⟨f, rfl⟩ : ∃ f, fuel = f + 2 := ⟨fuel - 2, by omega⟩
    have hnil : strtok WHITESPACE [] = (none, []) := by decide
    simp [fill_loop, strtok_spaced_zero, hnil]
  | succ n ih =>
    intro fuel i hf
    obtain ⟨f, rfl⟩ : ∃ f, fuel = f + 1 := ⟨fuel - 1, by omega⟩
    have := ih f (i + 1) (by omega)
    simp only [fill_loop, strtok_spaced_succ, List.mem_cons]
    right
    have he : i + (n + 1) + 1 = i + 1 + n + 1 := by omega
    rw [he]
    exact this

/-- Claim C9 fails on the code at the 4095-character line `a a ... a` of 2048 one-letter
tokens, which `fgets` can leave in the 4096-byte buffer: the child stores the tokens in
`args[0]` to `args[2047]` and then writes the terminating null entry at index
`2048 = MAX_ARGS`, one past the end of the array. -/
theorem args_overflow_at_full_line :
    (spaced_tokens 2047).length = BUF_SIZE - 1 ∧
    ∃ writes, child_args (spaced_tokens 2047) = some writes ∧
      (MAX_ARGS, none) ∈ writes ∧ ¬ (MAX_ARGS < MAX_ARGS) := by
  refine ⟨by rw [spaced_tokens_length]; rfl, ?_⟩
  have hs : strtok WHITESPACE (spaced_tokens 2047) = (some ['a'], spaced_tokens 2046) :=
    strtok_spaced_succ 2046
  have hc : child_args (spaced_tokens 2047)
      = some ((0, some ['a'])
          :: fill_loop ((spaced_tokens 2046).length + 1) 1 (spaced_tokens 2046)) := by
    simp only [child_args, hs]
  refine ⟨_, hc, ?_, by omega⟩
  have := fill_loop_spaced 2046 ((spaced_tokens 2046).length + 1) 1
    (by rw [spaced_tokens_length]; omega)
  simp only [List.mem_cons]
  right
  exact this

/-- With enough iterations the fill loop always ends by writing the null entry. -/
theorem fill_loop_ends (fuel : Nat) :
    ∀ (i : Nat) (save : CStr), save.length < fuel →
      ∃ ws k, fill_loop fuel i save = ws ++ [(k, none)] := by
  induction fuel with
  | zero => intro i save h; omega
  | succ f ih =>
    intro i save h
    cases hx : strtok WHITESPACE save with
    | mk tok rest =>
      cases tok with
      | none => exact ⟨[], i, by simp [fill_loop, hx]⟩
      | some t =>
        obtain ⟨pre, sep, hs, _, hne, _, _⟩ := strtok_some_shape _ _ _ _ hx
        have hlen : rest.length < f := by
          have := congrArg List.length hs
          have ht : 0 < t.length := List.length_pos.mpr hne
          simp only [List.length_append] at this
          omega
        obtain ⟨ws, k, hw⟩ := ih (i + 1) rest hlen
        exact ⟨(i, some t) :: ws, k, by simp [fill_loop, hx, hw]⟩

/-- The indices the fill loop writes stay within half the length of what is left. -/
theorem fill_loop_index_le (fuel : Nat) :
    ∀ (i : Nat) (save : CStr) (w : Nat × Option CStr),
      w ∈ fill_loop fuel i save → w.1 ≤ i + (save.length + 1) / 2 := by
  induction fuel with
  | zero => intro i save w h; simp [fill_loop] at h
  | succ f ih =>
    intro i save w h
    cases hx : strtok WHITESPACE save with
    | mk tok rest =>
      cases tok with
      | none =>
        simp only [fill_loop, hx, List.mem_singleton] at h
        subst h
        simp
      | some t =>
        simp only [fill_loop, hx, List.mem_cons] at h
        rcases h with rfl | h
        · simp
        · have hrec := ih (i + 1) rest w h
          obtain ⟨pre, sep, hs, _, hne, _, hsep⟩ := strtok_some_shape _ _ _ _ hx
          have hl := congrArg List.length hs
          have ht : 0 < t.length := List.length_pos.mpr hne
          simp only [List.length_append] at hl
          rcases hsep with ⟨_, rfl⟩ | ⟨d, _, rfl⟩
          · simp only [List.length_nil] at hrec hl
            omega
          · simp only [List.length_singleton] at hl
            omega

/-- The bound that does hold: for a command line of at most `BUF_SIZE - 1` characters every
index written into `args` is at most `MAX_ARGS`, and for a line of at most `BUF_SIZE - 2`
characters it is less than `MAX_ARGS`. -/
theorem child_args_index_le (command : CStr) (writes : List (Nat × Option CStr))
    (h : child_args command = some writes) (w : Nat × Option CStr) (hw : w ∈ writes) :
    w.1 ≤ (command.length + 1) / 2 := by
  unfold child_args at h
  cases hx : strtok WHITESPACE command with
  | mk tok save =>
    cases tok with
    | none => simp [hx] at h
    | some cmd =>
      simp only [hx, Option.some.injEq] at h
      subst h
      simp only [List.mem_cons] at hw
      rcases hw with rfl | hw
      · simp
      · have hrec := fill_loop_index_le _ 1 save w hw
        obtain ⟨pre, sep, hs, _, hne, _, hsep⟩ := strtok_some_shape _ _ _ _ hx
        have hl := congrArg List.length hs
        have ht : 0 < cmd.length := List.length_pos.mpr hne
        simp only [List.length_append] at hl
        rcases hsep with ⟨_, rfl⟩ | ⟨d, _, rfl⟩
        · simp only [List.length_nil] at hrec hl
          omega
        · simp only [List.length_singleton] at hl
          omega

/-! ## Claim C10: the flag carried from the launcher into the loop -/

/-- The launcher branch of `exec_cmd`: for a command that is neither `exit` nor `cd` and a
successful `fork`, the flag on return is the one computed from the termination status. -/
theorem exec_cmd_launch (env : Env) (interrupted : Bool) (command cmd save : CStr)
    (status : WaitStatus)
    (hcmd : strtok WHITESPACE command = (some cmd, save))
    (hexit : cmd ≠ "exit".toList) (hcd : cmd ≠ "cd".toList)
    (hfork : env.fork = some status) :
    (exec_cmd env interrupted command).action = Action.launched ∧
    (exec_cmd env interrupted command).interrupted
      = (status.WIFSIGNALED || status.WIFSTOPPED) := by
  simp only [exec_cmd, hcmd, if_neg hexit, if_neg hcd, hfork, reconcile]
  simp

/-- An iteration that reads a line with the flag clear and no signal calls `exec_cmd`. -/
theorem main_iteration_dispatch (env : Env) (cwd line : CStr)
    (hcwd : env.cwd = some cwd) (hread : env.read = some line)
    (hsig : env.sigint_read = false) :
    (main_iteration env false).dispatched = some (exec_cmd env false line).action := by
  simp only [main_iteration, hcwd, hread, hsig]
  by_cases h : (exec_cmd env false line).action = Action.exit_success <;> simp [h]

/-- An iteration that reads a line with the flag set drops the line and clears the flag. -/
theorem main_iteration_discard (env : Env) (cwd line : CStr)
    (hcwd : env.cwd = some cwd) (hread : env.read = some line) :
    main_iteration env true = ⟨Step.prompt false, none, prompt_text cwd⟩ := by
  simp only [main_iteration, hcwd, hread, sigint_handler]
  simp

/-- An iteration whose read fails with the flag set clears the flag, prints a newline after
the prompt and returns to the prompt. -/
theorem main_iteration_read_failed (env : Env) (cwd : CStr)
    (hcwd : env.cwd = some cwd) (hread : env.read = none) :
    main_iteration env true = ⟨Step.prompt false, none, prompt_text cwd ++ ['\n']⟩ := by
  simp only [main_iteration, hcwd, hread, sigint_handler]
  simp

/-- Claim C10 as stated fails: `sleep 100` is killed by a signal and the launcher returns
with the flag set; the read of the next iteration fails (end of input, no further signal),
which clears the flag at lines 273 to 276 and returns to the prompt; the next line that is
read successfully, `exit`, is then dispatched and ends the process instead of being
discarded. -/
theorem interrupt_cleared_by_failed_read_counterexample :
    (main_iteration { sample_env with read := some "sleep 100\n".toList, fork := some killed }
      false).step = Step.prompt true ∧
    main_iteration { sample_env with read := none } true
      = ⟨Step.prompt false, none, prompt_text "/tmp".toList ++ ['\n']⟩ ∧
    main_iteration { sample_env with read := some "exit\n".toList } false
      = ⟨Step.terminated EXIT_SUCCESS, some Action.exit_success, prompt_text "/tmp".toList⟩ ∧
    (main_iteration { sample_env with read := some "exit\n".toList } false).dispatched
      ≠ none := by
  decide

/-- Claim C10 (amended): when the termination status that `waitpid` stored says the child
of an external command was terminated or stopped by a signal, the flag is set when
`exec_cmd` returns (whatever it was on entry) and the iteration that launched it returns
to the prompt with the flag set.  The iteration that directly follows, when the working
directory is available, returns to the prompt with the flag clear and without calling
`exec_cmd`, whether or not a signal arrives during its read: if it reads a line, the line
is dropped whatever it holds and only the prompt is printed; if its read fails, the
prompt and a newline are printed.  With no further signal, the iteration after that
dispatches the line it reads to `exec_cmd`. -/
theorem interrupt_carried_into_loop (env1 env2 env3 : Env) (interrupted : Bool)
    (cwd1 cwd2 cwd3 line1 line3 cmd save : CStr) (status : WaitStatus)
    (hcmd : strtok WHITESPACE line1 = (some cmd, save))
    (hexit : cmd ≠ "exit".toList) (hcd : cmd ≠ "cd".toList)
    (hfork : env1.fork = some status)
    (hsignal : status.WIFSIGNALED = true ∨ status.WIFSTOPPED = true)
    (hcwd1 : env1.cwd = some cwd1) (hread1 : env1.read = some line1)
    (hsig1 : env1.sigint_read = false)
    (hcwd2 : env2.cwd = some cwd2)
    (hcwd3 : env3.cwd = some cwd3) (hread3 : env3.read = some line3)
    (hsig3 : env3.sigint_read = false) :
    (exec_cmd env1 interrupted line1).interrupted = true ∧
    (main_iteration env1 false).step = Step.prompt true ∧
    (∀ line2, env2.read = some line2 →
      main_iteration env2 true = ⟨Step.prompt false, none, prompt_text cwd2⟩) ∧
    (env2.read = none →
      main_iteration env2 true = ⟨Step.prompt false, none, prompt_text cwd2 ++ ['\n']⟩) ∧
    (main_iteration env2 true).step = Step.prompt false ∧
    (main_iteration env2 true).dispatched = none ∧
    (main_iteration env3 false).dispatched = some (exec_cmd env3 false line3).action := by
  have hflag : (status.WIFSIGNALED || status.WIFSTOPPED) = true := by
    rcases hsignal with h | h <;> simp [h]
  have hl := fun f => exec_cmd_launch env1 f line1 cmd save status hcmd hexit hcd hfork
  have h2 : (main_iteration env2 true).step = Step.prompt false ∧
      (main_iteration env2 true).dispatched = none := by
    cases hr : env2.read with
    | none => rw [main_iteration_read_failed env2 cwd2 hcwd2 hr]; exact ⟨rfl, rfl⟩
    | some line2 => rw [main_iteration_discard env2 cwd2 line2 hcwd2 hr]; exact ⟨rfl, rfl⟩
  refine ⟨by rw [(hl interrupted).2, hflag], ?_,
    fun line2 hr => main_iteration_discard env2 cwd2 line2 hcwd2 hr,
    fun hr => main_iteration_read_failed env2 cwd2 hcwd2 hr,
    h2.1, h2.2,
    main_iteration_dispatch env3 cwd3 line3 hcwd3 hread3 hsig3⟩
  simp only [main_iteration, hcwd1, hread1, hsig1]
  simp [(hl false).1, (hl false).2, hflag]

/-- The witness for `interrupt_carried_into_loop`: `sleep 100` is killed by a signal, the
line `exit` read by the iteration that directly follows is dropped, and the `exit` after
it is dispatched. -/
theorem interrupt_carried_into_loop_witness :
    (main_iteration { sample_env with read := some "sleep 100\n".toList, fork := some killed }
      false).step = Step.prompt true ∧
    main_iteration { sample_env with read := some "exit\n".toList } true
      = ⟨Step.prompt false, none, prompt_text "/tmp".toList⟩ ∧
    (main_iteration { sample_env with read := some "exit\n".toList } false).dispatched
      = some Action.exit_success :=
  have h := interrupt_carried_into_loop
    { sample_env with read := some "sleep 100\n".toList, fork := some killed }
    { sample_env with read := some "exit\n".toList }
    { sample_env with read := some "exit\n".toList }
    false "/tmp".toList "/tmp".toList "/tmp".toList
    "sleep 100\n".toList "exit\n".toList "sleep".toList "100\n".toList killed
    (by decide) (by decide) (by decide) rfl (Or.inl rfl) rfl rfl rfl rfl rfl rfl rfl
  ⟨h.2.1, h.2.2.1 "exit\n".toList rfl, h.2.2.2.2.2.2⟩

end Minishell
